import Mathlib

/-!
Shallow embedding of the pr-repo-miner acquisition pipeline:
the progress store (src/cache/progress_manager.py), the adaptive
windowed repository search (src/services/repository_service.py), the
batch orchestrator (src/miners/github_miner.py), the acceptance
pipeline (GitHubMiner._process_repository) and the PR/commit
comparison fetch (src/services/pull_request_service.py).

Network calls are modelled as function parameters (oracles) supplying
the JSON payloads the code would fetch; timestamps are passed in as a
parameter standing for time.time(); everything else follows the Python
source line by line.
-/

namespace PRMiner

/-- A raw candidate record from the search results (a repository JSON
object), restricted to the fields the miner reads. -/
structure Candidate where
  full_name : String
  html_url : String
  stargazers_count : Int
  watchers_count : Int
  forks_count : Int
  created_at : String
  updated_at : String
  default_branch : String
deriving Repr, DecidableEq

/-- models/repository.py: CommitData dataclass. -/
structure CommitData where
  sha : String
  message : String
  author_name : String
  author_email : Option String
  author_date : String
deriving Repr, DecidableEq

/-- models/repository.py: PullRequestData dataclass. -/
structure PullRequestData where
  pr_number : Int
  pr_title : String
  base_branch : String
  base_commit_sha : String
  base_commit_date : String
  pr_commit_sha : String
  pr_commit_date : String
  comparison_url : String
  author_name : String
  author_email : Option String
  author_login : String
  commits : List CommitData
deriving Repr, DecidableEq

/-- models/repository.py: RepositoryData dataclass (the accepted
record). The float average is modelled as a rational. -/
structure RepositoryData where
  name : String
  url : String
  stars : Int
  watchers : Int
  forks : Int
  created_at : String
  updated_at : String
  avg_issue_close_days : ℚ
  prs : List PullRequestData
  default_branch : String
  languages : Option (List (String × Nat))
  dominant_language : Option String
deriving Repr, DecidableEq

/-- The JSON object held in ProgressManager.progress_data
(see ProgressManager._create_empty_progress for the field list). -/
structure ProgressState where
  total_processed : Nat
  last_index : Nat
  processed_repos : List RepositoryData
  rejected_repos : List String
  search_results : List Candidate
  last_update : Option Nat
  config_hash : Option String
  current_batch : Nat
  cache_exhausted : Bool
deriving Repr, DecidableEq

/-- ProgressManager._create_empty_progress. -/
def createEmptyProgress : ProgressState :=
  { total_processed := 0
    last_index := 0
    processed_repos := []
    rejected_repos := []
    search_results := []
    last_update := none
    config_hash := none
    current_batch := 0
    cache_exhausted := false }

/-- ProgressManager._load_progress. The file system is abstracted into
two parameters: whether the progress file exists, and the outcome of
reading and JSON-decoding it (`none` models the except-branch taken on
an unreadable or unparsable file). -/
def loadProgress (fileExists : Bool) (parsed : Option ProgressState) : ProgressState :=
  if fileExists then
    match parsed with
    | some data => data
    | none => createEmptyProgress
  else createEmptyProgress

/-- ProgressManager.get_next_start_index (the batch_size argument is
unused in the source as well). -/
def get_next_start_index (st : ProgressState) (_batch_size : Nat) : Nat :=
  st.last_index

/-- ProgressManager.save_search_results; `now` stands for time.time(). -/
def save_search_results (st : ProgressState) (repos : List Candidate)
    (config_hash : String) (now : Nat) : ProgressState :=
  let existing := st.search_results
  let st1 :=
    if existing ≠ [] ∧ existing.length < repos.length then
      { st with cache_exhausted := false }
    else if existing = [] then
      { st with last_index := 0, cache_exhausted := false }
    else st
  { st1 with
      search_results := repos
      config_hash := some config_hash
      last_update := some now }

/-- ProgressManager.get_search_results: returns the cached candidates
only when the configuration hash matches and the cache is non-empty. -/
def get_search_results (st : ProgressState) (config_hash : String) :
    Option (List Candidate) :=
  if st.config_hash = some config_hash ∧ st.search_results ≠ [] then
    some st.search_results
  else none

/-- ProgressManager.update_progress; `now` stands for time.time().
File flushing (_save_progress) is I/O and does not touch the state. -/
def update_progress (st : ProgressState) (processed_repo : Option RepositoryData)
    (rejected_repos : List String) (current_index : Nat) (now : Nat) : ProgressState :=
  let st1 :=
    match processed_repo with
    | some rd =>
        { st with
            processed_repos := st.processed_repos ++ [rd]
            total_processed := st.total_processed + 1 }
    | none => st
  { st1 with
      rejected_repos := st1.rejected_repos ++ rejected_repos
      last_index := current_index
      last_update := some now }

/-- setup/config.py: the configuration values the embedded functions
read (min_stars is a Python int, the latency bound a float, modelled
as Int and ℚ). -/
structure MinerConfig where
  min_stars : Int
  search_language : String
  repos_per_page : Nat
  max_issue_close_days : ℚ
  batch_size : Nat
  total_target_repos : Nat
deriving Repr, DecidableEq

/-- The default configuration of setup/config.py. -/
def defaultConfig : MinerConfig :=
  { min_stars := 50
    search_language := "java"
    repos_per_page := 100
    max_issue_close_days := 3
    batch_size := 200
    total_target_repos := 1000 }

/-- Python truthiness of an Optional[int]: None and 0 are falsy. -/
def intTruthy : Option Int → Bool
  | none => false
  | some n => n ≠ 0

/-- The stars qualifier of a search query built by
RepositoryService.search_repositories_adaptive, kept symbolic so that
its window semantics can be stated. -/
inductive StarsQualifier where
  | atLeast (lo : Int)
  | between (lo hi : Int)
deriving Repr, DecidableEq

/-- GitHub search semantics of a stars qualifier: stars:>=A matches
A ≤ s; stars:A..B matches A ≤ s ≤ B. -/
def StarsQualifier.starMatch : StarsQualifier → Int → Bool
  | .atLeast lo, s => lo ≤ s
  | .between lo hi, s => lo ≤ s && s ≤ hi

/-- Rendering of a stars qualifier into the query fragment the source
interpolates. -/
def StarsQualifier.render : StarsQualifier → String
  | .atLeast lo => "stars:>=" ++ toString lo
  | .between lo hi => "stars:" ++ toString lo ++ ".." ++ toString hi

/-- The guard and query construction of
RepositoryService.search_repositories_adaptive (lines 21-36): `none`
means the function returns [] without issuing any search; `some q`
means it searches with query q. Python truthiness makes max_stars=0
skip both the exhaustion guard and the windowed branch. -/
def adaptiveQuery (cfg : MinerConfig) (max_stars : Option Int) : Option String :=
  if intTruthy max_stars ∧ max_stars.getD 0 ≤ cfg.min_stars then none
  else
    let stars_query :=
      if intTruthy max_stars then
        StarsQualifier.render (.between cfg.min_stars (max_stars.getD 0 - 1))
      else
        StarsQualifier.render (.atLeast cfg.min_stars)
    some ("language:" ++ cfg.search_language ++ " " ++ stars_query)

/-- The stars qualifier of the window adaptiveQuery issues, `none`
when no search is issued. -/
def adaptiveStarsQualifier (cfg : MinerConfig) (max_stars : Option Int) :
    Option StarsQualifier :=
  if intTruthy max_stars ∧ max_stars.getD 0 ≤ cfg.min_stars then none
  else if intTruthy max_stars then
    some (.between cfg.min_stars (max_stars.getD 0 - 1))
  else
    some (.atLeast cfg.min_stars)

/-- Star values admitted by the window search_repositories_adaptive
issues for the given ceiling; an absent query (no search issued)
admits nothing. -/
def windowStars (cfg : MinerConfig) (max_stars : Option Int) (s : Int) : Bool :=
  match adaptiveStarsQualifier cfg max_stars with
  | none => false
  | some q => q.starMatch s

/-- RepositoryService._search_repositories_paginated, loop body: the
API is an oracle from page number to response (`none` models a
response without an items field). Pages are numbered from `pageNum`;
`fuel` pages remain of the hard 10-page ceiling. -/
def searchPaginatedAux (fetch : Nat → Option (List Candidate)) (perPage : Nat) :
    Nat → Nat → List Candidate
  | 0, _ => []
  | fuel + 1, pageNum =>
    match fetch pageNum with
    | none => []
    | some pageRepos =>
      if pageRepos.length < perPage then pageRepos
      else pageRepos ++ searchPaginatedAux fetch perPage fuel (pageNum + 1)

/-- RepositoryService._search_repositories_paginated: pages 1..10,
stopping early on a missing response or a short page. -/
def search_repositories_paginated (fetch : Nat → Option (List Candidate))
    (perPage : Nat) : List Candidate :=
  searchPaginatedAux fetch perPage 10 1

/-- RepositoryService.search_repositories_adaptive: the query oracle
`fetch` takes the query string and the page number. -/
def search_repositories_adaptive (cfg : MinerConfig)
    (fetch : String → Nat → Option (List Candidate)) (max_stars : Option Int) :
    List Candidate :=
  match adaptiveQuery cfg max_stars with
  | none => []
  | some q => search_repositories_paginated (fetch q) cfg.repos_per_page

/-- GitHubMiner._ensure_sufficient_repo_cache: `searchFn` stands for
the call self.repo_service.search_repositories_adaptive(max_stars=...).
Returns the candidate list the session will use together with the
progress state (updated only when the cache is expanded and saved). -/
def ensure_sufficient_repo_cache (searchFn : Option Int → List Candidate)
    (config_hash : String) (now : Nat) (st : ProgressState) (start_index : Nat) :
    List Candidate × ProgressState :=
  let repos := (get_search_results st config_hash).getD []
  if start_index < repos.length then (repos, st)
  else
    let max_stars_for_next_search : Option Int :=
      repos.getLast?.map Candidate.stargazers_count
    let new_repos := searchFn max_stars_for_next_search
    if new_repos = [] then (repos, st)
    else
      let existing_names := repos.map Candidate.full_name
      let unique_new := new_repos.filter fun r => !(existing_names.contains r.full_name)
      if unique_new = [] then (repos, st)
      else
        let repos2 := repos ++ unique_new
        (repos2, save_search_results st repos2 config_hash now)

/-- The dominant-language pick of GitHubMiner._process_repository:
max(languages.items(), key=lambda item: item[1]) keeps the first
maximum of the byte counts; an absent or empty histogram is falsy. -/
def dominantLanguage (languages : Option (List (String × Nat))) : Option String :=
  match languages with
  | none => none
  | some [] => none
  | some (x :: rest) =>
    some (rest.foldl (fun best cur => if best.2 < cur.2 then cur else best) x).1

/-- GitHubMiner._process_repository, the acceptance pipeline: the
three service calls are passed in as their results (the PR comparison
list, the average issue-close latency in days, the language
histogram). Returns the accepted record or `none` on rejection. -/
def process_repository (cfg : MinerConfig) (prs_data : List PullRequestData)
    (avg_days : Option ℚ) (languages : Option (List (String × Nat)))
    (repo : Candidate) : Option RepositoryData :=
  if prs_data = [] then none
  else
    match avg_days with
    | none => none
    | some avg =>
      if avg ≥ cfg.max_issue_close_days then none
      else
        some
          { name := repo.full_name
            url := repo.html_url
            stars := repo.stargazers_count
            watchers := repo.watchers_count
            forks := repo.forks_count
            created_at := repo.created_at
            updated_at := repo.updated_at
            avg_issue_close_days := avg
            prs := prs_data
            default_branch := repo.default_branch
            languages := languages
            dominant_language := dominantLanguage languages }

/-- GitHubMiner._process_batch, loop body: `evalRepo` stands for
self._process_repository; `batch` is the remaining slice and
`currentIndex` the cache index of its head. Returns the final
progress state and the accepted records of the batch in order. -/
def process_batch_aux (evalRepo : Candidate → Option RepositoryData) (now : Nat) :
    ProgressState → List Candidate → Nat → ProgressState × List RepositoryData
  | st, [], _ => (st, [])
  | st, repoJson :: rest, currentIndex =>
    let repoData := evalRepo repoJson
    let rejectedList :=
      match repoData with
      | some _ => []
      | none => [repoJson.full_name]
    let st2 := update_progress st repoData rejectedList (currentIndex + 1) now
    let tail := process_batch_aux evalRepo now st2 rest (currentIndex + 1)
    (tail.1,
      (match repoData with
       | some rd => [rd]
       | none => []) ++ tail.2)

/-- GitHubMiner._process_batch: processes repos[start_index:end_index]
in cache order. -/
def process_batch (evalRepo : Candidate → Option RepositoryData) (now : Nat)
    (st : ProgressState) (repos : List Candidate) (start_index end_index : Nat) :
    ProgressState × List RepositoryData :=
  process_batch_aux evalRepo now st
    ((repos.drop start_index).take (end_index - start_index)) start_index

/-- The commit.author sub-object of a raw commit JSON object, with the
defaults the source applies via .get. -/
structure RawCommitAuthor where
  name : String
  email : Option String
  date : String
deriving Repr, DecidableEq

/-- A raw commit JSON object as read by PullRequestService (sha plus
the commit.message and commit.author fields). -/
structure RawCommit where
  sha : String
  message : String
  author : RawCommitAuthor
deriving Repr, DecidableEq

/-- A raw open-pull-request JSON object, restricted to the fields
PullRequestService.get_pr_comparison_data reads. user_login and
user_name are Optional because the source reads them with .get. -/
structure RawPullRequest where
  number : Int
  title : String
  base_ref : String
  created_at : String
  user_login : Option String
  user_name : Option String
  commits_url : String
deriving Repr, DecidableEq

/-- The per-commit extraction of get_pr_comparison_data step 4: sha,
first line of the message, author name, optional email, author date. -/
def rawToCommitData (c : RawCommit) : CommitData :=
  { sha := c.sha
    message := (c.message.splitOn "\n").headD ""
    author_name := c.author.name
    author_email := c.author.email
    author_date := c.author.date }

/-- The author_email accumulation of get_pr_comparison_data step 4:
the first truthy (present and non-empty) email in commit order. -/
def firstTruthyEmail : List CommitData → Option String
  | [] => none
  | c :: rest =>
    match c.author_email with
    | some e => if e = "" then firstTruthyEmail rest else some e
    | none => firstTruthyEmail rest

/-- PullRequestService._get_commit_before_date: the branch-history
oracle `fetchBranchCommits` takes the branch and the until-date and
returns the commit list the API answers with (per_page=1 in the
source); the function returns its first commit when one exists. -/
def get_commit_before_date (fetchBranchCommits : String → String → List RawCommit)
    (branch : String) (target_date : String) : Option RawCommit :=
  (fetchBranchCommits branch target_date).head?

/-- One iteration of the PR loop in
PullRequestService.get_pr_comparison_data: returns the record appended
to prs_data, or `none` when the PR is skipped (empty commit list, or
no base commit resolved). `fetchPRCommits` stands for
get_json_response(pr[commits_url]). -/
def process_pull_request (repo_full_name : String)
    (fetchPRCommits : String → List RawCommit)
    (fetchBranchCommits : String → String → List RawCommit)
    (pr : RawPullRequest) : Option PullRequestData :=
  let base_branch := pr.base_ref
  let pr_created_at := pr.created_at
  let author_login := pr.user_login.getD "unknown"
  let author_name0 :=
    match pr.user_name with
    | some nm => if nm = "" then author_login else nm
    | none => author_login
  let pr_commits_data := fetchPRCommits pr.commits_url
  if pr_commits_data = [] then none
  else
    let commits := pr_commits_data.map rawToCommitData
    let author_email := firstTruthyEmail commits
    match pr_commits_data.getLast? with
    | none => none
    | some last_pr_commit =>
      let author_name :=
        if author_name0 = author_login ∧ commits ≠ [] then
          match commits.getLast? with
          | some lastC => if lastC.author_name = "" then author_name0 else lastC.author_name
          | none => author_name0
        else author_name0
      match get_commit_before_date fetchBranchCommits base_branch pr_created_at with
      | none => none
      | some base_commit =>
        some
          { pr_number := pr.number
            pr_title := pr.title
            base_branch := base_branch
            base_commit_sha := base_commit.sha
            base_commit_date := base_commit.author.date
            pr_commit_sha := last_pr_commit.sha
            pr_commit_date := last_pr_commit.author.date
            comparison_url :=
              "https://github.com/" ++ repo_full_name ++ "/compare/" ++
                base_commit.sha ++ "..." ++ last_pr_commit.sha
            author_name := author_name
            author_email := author_email
            author_login := author_login
            commits := commits }

/-- PullRequestService.get_pr_comparison_data: the fetched open-PR
list is processed in order, skipped PRs contributing nothing. -/
def get_pr_comparison_data (repo_full_name : String)
    (fetchPRCommits : String → List RawCommit)
    (fetchBranchCommits : String → String → List RawCommit)
    (prs : List RawPullRequest) : List PullRequestData :=
  prs.filterMap (process_pull_request repo_full_name fetchPRCommits fetchBranchCommits)

/-- A ProgressManager operation of the kind claim C2 quantifies over:
an update_progress call or a save_search_results call, with the
timestamp each would read. -/
inductive StoreOp where
  | update (processed : Option RepositoryData) (rejected : List String)
      (idx : Nat) (now : Nat)
  | save (repos : List Candidate) (hash : String) (now : Nat)
deriving Repr

/-- Executes one store operation on the progress state. -/
def applyStoreOp (st : ProgressState) : StoreOp → ProgressState
  | .update p r i n => update_progress st p r i n
  | .save repos h n => save_search_results st repos h n

/-- Executes a sequence of store operations. -/
def applyStoreOps (st : ProgressState) : List StoreOp → ProgressState
  | [] => st
  | op :: rest => applyStoreOps (applyStoreOp st op) rest

/-- The side conditions claim C2 puts on an operation: an
update_progress call carries a batch index not below the stored one,
and a save_search_results call expands a non-empty cached result
set. -/
def StoreOp.valid (st : ProgressState) : StoreOp → Prop
  | .update _ _ i _ => st.last_index ≤ i
  | .save repos _ _ => st.search_results ≠ [] ∧ st.search_results.length < repos.length

/-- Every operation of the sequence satisfies its side condition in
the state it runs in. -/
def validOps (st : ProgressState) : List StoreOp → Prop
  | [] => True
  | op :: rest => op.valid st ∧ validOps (applyStoreOp st op) rest

/-! Concrete sample data used by witness statements. -/

/-- A concrete candidate with the given name and star count. -/
def mkCandidate (fullName : String) (stars : Int) : Candidate :=
  { full_name := fullName
    html_url := "https://example.org/" ++ fullName
    stargazers_count := stars
    watchers_count := 0
    forks_count := 0
    created_at := "2020-01-01T00:00:00Z"
    updated_at := "2021-01-01T00:00:00Z"
    default_branch := "main" }

/-- A concrete pull-request record. -/
def samplePRData : PullRequestData :=
  { pr_number := 1
    pr_title := "t"
    base_branch := "main"
    base_commit_sha := "b"
    base_commit_date := "d1"
    pr_commit_sha := "p"
    pr_commit_date := "d2"
    comparison_url := "u"
    author_name := "a"
    author_email := none
    author_login := "a"
    commits := [] }

/-! Theorems settling the claims. -/

/-- C9: if the progress file exists but reading or decoding it fails,
ProgressManager._load_progress falls back to the fresh empty state
(zero processed, last_index 0, empty candidate cache and rejected
list) instead of raising. -/
theorem load_progress_corrupt_falls_back :
    loadProgress true none = createEmptyProgress ∧
    createEmptyProgress.total_processed = 0 ∧
    createEmptyProgress.last_index = 0 ∧
    createEmptyProgress.search_results = [] ∧
    createEmptyProgress.rejected_repos = [] :=
  ⟨rfl, rfl, rfl, rfl, rfl⟩

/-- C10: an update_progress call with no accepted record leaves
total_processed and processed_repos (and the cache, configuration
hash, batch counter and exhaustion flag) unchanged, extends
rejected_repos by exactly the given identities, and sets last_index
to the given index. -/
theorem update_progress_reject_frame (st : ProgressState) (rejected : List String)
    (idx now : Nat) :
    (update_progress st none rejected idx now).total_processed = st.total_processed ∧
    (update_progress st none rejected idx now).processed_repos = st.processed_repos ∧
    (update_progress st none rejected idx now).rejected_repos
      = st.rejected_repos ++ rejected ∧
    (update_progress st none rejected idx now).last_index = idx ∧
    (update_progress st none rejected idx now).search_results = st.search_results ∧
    (update_progress st none rejected idx now).config_hash = st.config_hash ∧
    (update_progress st none rejected idx now).current_batch = st.current_batch ∧
    (update_progress st none rejected idx now).cache_exhausted = st.cache_exhausted :=
  ⟨rfl, rfl, rfl, rfl, rfl, rfl, rfl, rfl⟩

/-- C6: a candidate whose average issue-close latency is at least the
configured maximum is rejected by the acceptance pipeline
(GitHubMiner._process_repository returns None); equality rejects. -/
theorem high_latency_rejected (cfg : MinerConfig) (prs_data : List PullRequestData)
    (languages : Option (List (String × Nat))) (repo : Candidate) (a : ℚ)
    (h : a ≥ cfg.max_issue_close_days) :
    process_repository cfg prs_data (some a) languages repo = none := by
  unfold process_repository
  split
  · rfl
  · exact if_pos h

theorem high_latency_rejected_witness :
    process_repository defaultConfig [samplePRData] (some 3) none
      (mkCandidate "octo/repo" 100) = none :=
  high_latency_rejected defaultConfig [samplePRData] none
    (mkCandidate "octo/repo" 100) 3 (le_refl _)

/-- Each processed candidate advances last_index to its cache index
plus one; so running GitHubMiner._process_batch over a non-empty batch
leaves last_index at the batch start plus the batch length. -/
theorem process_batch_aux_last_index (evalRepo : Candidate → Option RepositoryData)
    (now : Nat) (batch : List Candidate) :
    ∀ (st : ProgressState) (idx : Nat), batch ≠ [] →
      ((process_batch_aux evalRepo now st batch idx).1).last_index
        = idx + batch.length := by
  induction batch with
  | nil => intro st idx h; exact absurd rfl h
  | cons c rest ih =>
    intro st idx _
    rcases eq_or_ne rest [] with hrest | hrest
    · subst hrest
      rfl
    · show ((process_batch_aux evalRepo now _ rest (idx + 1)).1).last_index = _
      rw [ih _ (idx + 1) hrest]
      simp [List.length_cons]
      omega

/-- C1: _process_batch runs over repos[start:end) in cache order;
after the candidate at cache index i (accepted or rejected alike,
evalRepo being arbitrary) the stored last_index is i + 1, so after a
full batch it is end_index and the next session resumes there — a
rejected identity is never retried. -/
theorem batch_advances_last_index (evalRepo : Candidate → Option RepositoryData)
    (now : Nat) (st : ProgressState) (repos : List Candidate)
    (start_index end_index : Nat)
    (h1 : start_index < end_index) (h2 : end_index ≤ repos.length) :
    (∀ k, 0 < k → k ≤ end_index - start_index →
      ((process_batch_aux evalRepo now st
          (((repos.drop start_index).take (end_index - start_index)).take k)
          start_index).1).last_index = start_index + k) ∧
    ((process_batch evalRepo now st repos start_index end_index).1).last_index
      = end_index ∧
    (∀ bs, get_next_start_index
        (process_batch evalRepo now st repos start_index end_index).1 bs
      = end_index) := by
  have hlen : ((repos.drop start_index).take (end_index - start_index)).length
      = end_index - start_index := by
    rw [List.length_take, List.length_drop]
    omega
  have hmain :
      ((process_batch evalRepo now st repos start_index end_index).1).last_index
        = end_index := by
    unfold process_batch
    have hne : (repos.drop start_index).take (end_index - start_index) ≠ [] := by
      intro hcontra
      rw [hcontra] at hlen
      simp at hlen
      omega
    rw [process_batch_aux_last_index _ _ _ _ _ hne, hlen]
    omega
  refine ⟨?_, hmain, fun bs => hmain⟩
  intro k hk0 hk
  have hlenk :
      ((((repos.drop start_index).take (end_index - start_index)).take k)).length
        = k := by
    rw [List.length_take, hlen]
    omega
  have hne : (((repos.drop start_index).take (end_index - start_index)).take k) ≠ [] := by
    intro hcontra
    rw [hcontra] at hlenk
    simp at hlenk
    omega
  rw [process_batch_aux_last_index _ _ _ _ _ hne, hlenk]

theorem batch_advances_last_index_witness :
    ((process_batch (fun _ => none) 0 createEmptyProgress
        [mkCandidate "a/a" 60, mkCandidate "b/b" 55] 0 2).1).last_index = 2 :=
  (batch_advances_last_index (fun _ => none) 0 createEmptyProgress
    [mkCandidate "a/a" 60, mkCandidate "b/b" 55] 0 2
    (by decide) (by decide)).2.1

/-- A single valid store operation never lowers last_index: an
update_progress call with an index not below the stored one sets it to
that index, and a save_search_results call that expands a non-empty
cache leaves it untouched. -/
theorem applyStoreOp_last_index_mono (st : ProgressState) (op : StoreOp)
    (h : op.valid st) :
    st.last_index ≤ (applyStoreOp st op).last_index := by
  cases op with
  | update p r i n => exact h
  | save repos hash n =>
    show st.last_index ≤ (save_search_results st repos hash n).last_index
    have h' : st.search_results ≠ [] ∧ st.search_results.length < repos.length := h
    obtain ⟨ha, hb⟩ := h'
    simp [save_search_results, ha, hb]

/-- C2: across any sequence of update_progress calls with
non-decreasing batch indices and cache-expanding save_search_results
calls, the stored last_index is monotone non-decreasing. -/
theorem store_last_index_monotone (st : ProgressState) (ops : List StoreOp)
    (h : validOps st ops) :
    st.last_index ≤ (applyStoreOps st ops).last_index := by
  induction ops generalizing st with
  | nil => exact Nat.le_refl _
  | cons op rest ih =>
    obtain ⟨h1, h2⟩ := h
    exact le_trans (applyStoreOp_last_index_mono st op h1) (ih _ h2)

/-- A concrete mid-session progress state for the C2 witness. -/
def c2State : ProgressState :=
  { createEmptyProgress with
      search_results := [mkCandidate "a/a" 60]
      last_index := 2 }

/-- A concrete valid operation sequence for the C2 witness. -/
def c2Ops : List StoreOp :=
  [.save [mkCandidate "a/a" 60, mkCandidate "b/b" 55] "cfg" 5,
   .update none ["b/b"] 7 6]

theorem store_last_index_monotone_witness :
    c2State.last_index ≤ (applyStoreOps c2State c2Ops).last_index :=
  store_last_index_monotone c2State c2Ops
    ⟨⟨by decide, by decide⟩,
     ⟨(by decide :
        (applyStoreOp c2State
          (StoreOp.save [mkCandidate "a/a" 60, mkCandidate "b/b" 55] "cfg" 5)).last_index
        ≤ 7),
      trivial⟩⟩

/-- C3: when the resume index has reached the cache length,
_ensure_sufficient_repo_cache widens the window with the star count of
the last cached candidate as ceiling and merges exactly the returned
candidates whose full name is not already cached; and when the
response is non-empty but brings no new unique name, it returns the
cache and the progress state unchanged (exhaustion, no loop — the
function makes a single widening attempt). -/
theorem widen_uses_last_star_and_merges (searchFn : Option Int → List Candidate)
    (config_hash : String) (now : Nat) (st : ProgressState) (start_index : Nat)
    (cache : List Candidate)
    (hcache : cache = (get_search_results st config_hash).getD [])
    (h1 : cache.length ≤ start_index) (h2 : cache ≠ []) :
    (ensure_sufficient_repo_cache searchFn config_hash now st start_index).1
      = cache ++ (searchFn (some ((cache.getLast h2).stargazers_count))).filter
          (fun r => !((cache.map Candidate.full_name).contains r.full_name)) ∧
    (searchFn (some ((cache.getLast h2).stargazers_count)) ≠ [] →
      (∀ r ∈ searchFn (some ((cache.getLast h2).stargazers_count)),
        r.full_name ∈ cache.map Candidate.full_name) →
      ensure_sufficient_repo_cache searchFn config_hash now st start_index
        = (cache, st)) := by
  have hrepos : (get_search_results st config_hash).getD [] = cache := hcache.symm
  constructor
  · unfold ensure_sufficient_repo_cache
    simp only [hrepos]
    rw [if_neg (by omega), List.getLast?_eq_getLast_of_ne_nil h2,
      Option.map_some']
    by_cases hnew : searchFn (some ((cache.getLast h2).stargazers_count)) = []
    · rw [if_pos hnew, hnew]
      simp
    · rw [if_neg hnew]
      by_cases huniq :
          (searchFn (some ((cache.getLast h2).stargazers_count))).filter
            (fun r => !((cache.map Candidate.full_name).contains r.full_name)) = []
      · rw [if_pos huniq, huniq]
        simp
      · rw [if_neg huniq]
  · intro hne hall
    have huniq :
        (searchFn (some ((cache.getLast h2).stargazers_count))).filter
          (fun r => !((cache.map Candidate.full_name).contains r.full_name)) = [] := by
      refine List.filter_eq_nil_iff.mpr ?_
      intro r hr
      simp [List.contains, hall r hr]
    unfold ensure_sufficient_repo_cache
    simp only [hrepos]
    rw [if_neg (by omega), List.getLast?_eq_getLast_of_ne_nil h2,
      Option.map_some', if_neg hne, if_pos huniq]

/-- A concrete progress state for the C3 witness: one cached
candidate, already fully processed. -/
def c3State : ProgressState :=
  { createEmptyProgress with
      config_hash := some "cfg"
      search_results := [mkCandidate "a/a" 60] }

/-- A concrete search oracle for the C3 witness. -/
def c3Search : Option Int → List Candidate :=
  fun _ => [mkCandidate "a/a" 60, mkCandidate "c/c" 40]

theorem widen_uses_last_star_and_merges_witness :
    (ensure_sufficient_repo_cache c3Search "cfg" 9 c3State 1).1
      = [mkCandidate "a/a" 60]
        ++ (c3Search (some ((([mkCandidate "a/a" 60]).getLast
              (by decide)).stargazers_count))).filter
          (fun r =>
            !((([mkCandidate "a/a" 60]).map Candidate.full_name).contains
              r.full_name)) :=
  (widen_uses_last_star_and_merges c3Search "cfg" 9 c3State 1
    [mkCandidate "a/a" 60] (by decide) (by decide) (by decide)).1

/-- C4 counterexample: the claim quantifies over every upper bound,
but with the default configuration an upper bound of 0 is falsy in
Python, so search_repositories_adaptive issues the unbounded
first-window query stars:>=50 — whose window contains the star value
50, which is not below the bound 0. -/
theorem adaptive_zero_bound_window_not_below_bound :
    windowStars defaultConfig (some 0) 50 = true ∧ ¬ ((50 : Int) < 0) ∧
    adaptiveQuery defaultConfig (some 0)
      = some ("language:" ++ defaultConfig.search_language ++ " "
          ++ StarsQualifier.render (.atLeast defaultConfig.min_stars)) := by
  refine ⟨by decide, by decide, by decide⟩

/-- C4 (amended): with no upper bound the query is the unbounded
first-window query stars:>=MIN_STARS; a NONZERO upper bound above
MIN_STARS yields the query stars:MIN_STARS..(bound-1); and for every
nonzero upper bound the issued window admits no star value ≥ the
bound (an upper bound of 0 is treated as absent by Python falsiness,
which is what the amendment excludes). -/
theorem adaptive_query_windows (cfg : MinerConfig) (ub : Int) (h : ub ≠ 0) :
    adaptiveQuery cfg none
      = some ("language:" ++ cfg.search_language ++ " "
          ++ StarsQualifier.render (.atLeast cfg.min_stars)) ∧
    (cfg.min_stars < ub →
      adaptiveQuery cfg (some ub)
        = some ("language:" ++ cfg.search_language ++ " "
            ++ StarsQualifier.render (.between cfg.min_stars (ub - 1)))) ∧
    (∀ s : Int, windowStars cfg (some ub) s = true → s < ub) := by
  have htruthy : intTruthy (some ub) = true := by simp [intTruthy, h]
  refine ⟨by simp [adaptiveQuery, intTruthy], ?_, ?_⟩
  · intro hlt
    simp [adaptiveQuery, htruthy, not_le.mpr hlt]
  · intro s hs
    by_cases hle : ub ≤ cfg.min_stars
    · simp [windowStars, adaptiveStarsQualifier, htruthy, hle] at hs
    · simp [windowStars, adaptiveStarsQualifier, htruthy, hle,
        StarsQualifier.starMatch] at hs
      omega

theorem adaptive_query_windows_witness :
    adaptiveQuery defaultConfig (some 1000)
      = some ("language:" ++ defaultConfig.search_language ++ " "
          ++ StarsQualifier.render
              (.between defaultConfig.min_stars (1000 - 1))) :=
  (adaptive_query_windows defaultConfig 1000 (by decide)).2.1 (by decide)

/-- C5 counterexample: the upper bound 0 is ≤ the default floor 50,
yet search_repositories_adaptive does issue a search (the Python guard
`if max_stars and ...` sees 0 as falsy) and returns its non-empty
result rather than the empty sequence. -/
theorem adaptive_zero_bound_still_searches :
    (0 : Int) ≤ defaultConfig.min_stars ∧
    adaptiveQuery defaultConfig (some 0) ≠ none ∧
    search_repositories_adaptive defaultConfig
        (fun _ _ => some [mkCandidate "x/y" 60]) (some 0)
      = [mkCandidate "x/y" 60] := by
  refine ⟨by decide, by decide, by decide⟩

/-- C5 (amended): for every NONZERO upper bound at most the configured
floor, search_repositories_adaptive builds no query (no search is
issued) and returns the empty sequence whatever the API would answer;
an upper bound of 0 is falsy in Python and escapes the guard. -/
theorem adaptive_exhausted_window_empty (cfg : MinerConfig) (ub : Int)
    (h0 : ub ≠ 0) (hle : ub ≤ cfg.min_stars) :
    adaptiveQuery cfg (some ub) = none ∧
    ∀ fetch : String → Nat → Option (List Candidate),
      search_repositories_adaptive cfg fetch (some ub) = [] := by
  have htruthy : intTruthy (some ub) = true := by simp [intTruthy, h0]
  have hq : adaptiveQuery cfg (some ub) = none := by
    simp [adaptiveQuery, htruthy, hle]
  refine ⟨hq, fun fetch => ?_⟩
  simp [search_repositories_adaptive, hq]

theorem adaptive_exhausted_window_empty_witness :
    adaptiveQuery defaultConfig (some 30) = none ∧
    search_repositories_adaptive defaultConfig
        (fun _ _ => some [mkCandidate "x/y" 60]) (some 30) = [] :=
  ⟨(adaptive_exhausted_window_empty defaultConfig 30 (by decide) (by decide)).1,
   (adaptive_exhausted_window_empty defaultConfig 30 (by decide) (by decide)).2
     (fun _ _ => some [mkCandidate "x/y" 60])⟩

/-- C7: a PullRequestRecord is emitted for an open PR only when the
PR's fetched commit list is non-empty and a base commit resolves for
its base branch at its creation timestamp; a PR failing either
condition is skipped and contributes no record. -/
theorem pr_record_requires_commits_and_base (repo_full_name : String)
    (fetchPRCommits : String → List RawCommit)
    (fetchBranchCommits : String → String → List RawCommit)
    (prs : List RawPullRequest) :
    (∀ pr : RawPullRequest,
      (fetchPRCommits pr.commits_url = [] ∨
        get_commit_before_date fetchBranchCommits pr.base_ref pr.created_at
          = none) →
      process_pull_request repo_full_name fetchPRCommits fetchBranchCommits pr
        = none) ∧
    (∀ rec ∈ get_pr_comparison_data repo_full_name fetchPRCommits
        fetchBranchCommits prs,
      ∃ pr ∈ prs,
        fetchPRCommits pr.commits_url ≠ [] ∧
        (get_commit_before_date fetchBranchCommits pr.base_ref
            pr.created_at).isSome ∧
        process_pull_request repo_full_name fetchPRCommits fetchBranchCommits pr
          = some rec) := by
  have hskip : ∀ pr : RawPullRequest,
      (fetchPRCommits pr.commits_url = [] ∨
        get_commit_before_date fetchBranchCommits pr.base_ref pr.created_at
          = none) →
      process_pull_request repo_full_name fetchPRCommits fetchBranchCommits pr
        = none := by
    intro pr h
    rcases h with hc | hb
    · simp [process_pull_request, hc]
    · by_cases hc : fetchPRCommits pr.commits_url = []
      · simp [process_pull_request, hc]
      · rcases hl : (fetchPRCommits pr.commits_url).getLast? with _ | lastc
        · simp [process_pull_request, hc, hl]
        · simp [process_pull_request, hc, hl, hb]
  refine ⟨hskip, ?_⟩
  intro rec hrec
  rw [get_pr_comparison_data] at hrec
  obtain ⟨pr, hpr, hf⟩ := List.mem_filterMap.mp hrec
  refine ⟨pr, hpr, ?_, ?_, hf⟩
  · intro hc
    rw [hskip pr (Or.inl hc)] at hf
    exact Option.noConfusion hf
  · rcases hb : get_commit_before_date fetchBranchCommits pr.base_ref pr.created_at
      with _ | bc
    · rw [hskip pr (Or.inr hb)] at hf
      exact Option.noConfusion hf
    · simp

/-- A concrete open PR for the C7 witness. -/
def c7PR : RawPullRequest :=
  { number := 7
    title := "t"
    base_ref := "main"
    created_at := "2024-01-01T00:00:00Z"
    user_login := some "octo"
    user_name := none
    commits_url := "cu" }

theorem pr_record_requires_commits_and_base_witness :
    process_pull_request "o/r" (fun _ => []) (fun _ _ => []) c7PR = none :=
  (pr_record_requires_commits_and_base "o/r" (fun _ => []) (fun _ _ => []) []).1
    c7PR (Or.inl rfl)

/-- Structure of _search_repositories_paginated with `fuel` pages left
starting at page `start`: the result is the concatenation of the
fetched pages, at most `fuel` of them, all but the last full, with
total length at most fuel * perPage (given that the API honours the
page size). -/
theorem searchPaginatedAux_structure (fetch : Nat → Option (List Candidate))
    (perPage : Nat) (hpages : ∀ p l, fetch p = some l → l.length ≤ perPage) :
    ∀ fuel start : Nat, ∃ ps : List (List Candidate),
      searchPaginatedAux fetch perPage fuel start = ps.flatten ∧
      ps.length ≤ fuel ∧
      (∀ i, (h : i + 1 < ps.length) →
        (ps.get ⟨i, Nat.lt_of_succ_lt h⟩).length = perPage) ∧
      (searchPaginatedAux fetch perPage fuel start).length ≤ fuel * perPage := by
  intro fuel
  induction fuel with
  | zero =>
    intro start
    exact ⟨[], rfl, by simp, by intro i h; simp at h, by simp [searchPaginatedAux]⟩
  | succ n ih =>
    intro start
    cases hf : fetch start with
    | none =>
      refine ⟨[], ?_, by simp, by intro i h; simp at h, ?_⟩
      · simp [searchPaginatedAux, hf]
      · simp [searchPaginatedAux, hf]
    | some l =>
      by_cases hlt : l.length < perPage
      · refine ⟨[l], ?_, by simp, by intro i h; simp at h, ?_⟩
        · simp [searchPaginatedAux, hf, hlt]
        · have h1 : searchPaginatedAux fetch perPage (n + 1) start = l := by
            simp [searchPaginatedAux, hf, hlt]
          rw [h1]
          exact le_trans (hpages _ _ hf)
            (Nat.le_mul_of_pos_left perPage (Nat.succ_pos n))
      · obtain ⟨ps, heq, hlen, hfull, hbound⟩ := ih (start + 1)
        have hlfull : l.length = perPage :=
          le_antisymm (hpages _ _ hf) (not_lt.mp hlt)
        have h1 : searchPaginatedAux fetch perPage (n + 1) start
            = l ++ searchPaginatedAux fetch perPage n (start + 1) := by
          simp [searchPaginatedAux, hf, hlt]
        refine ⟨l :: ps, ?_, by simpa using hlen, ?_, ?_⟩
        · rw [h1, heq]
          rfl
        · intro i h
          cases i with
          | zero => simpa using hlfull
          | succ j =>
            have hj : j + 1 < ps.length := by
              simpa using h
            simpa using hfull j hj
        · rw [h1]
          rw [List.length_append, hlfull, Nat.succ_mul]
          omega

/-- C8: the paginated window fetch consumes at most 10 pages (its
result depends only on pages 1..10 of the API), the returned sequence
is the concatenation of the fetched pages with every page before the
last one full (a short page stops the loop), and it holds at most
10 * perPage candidates — given that the API never returns more than
perPage items per page. -/
theorem paginated_search_bounded (fetch : Nat → Option (List Candidate))
    (perPage : Nat) (hpages : ∀ p l, fetch p = some l → l.length ≤ perPage) :
    (search_repositories_paginated fetch perPage).length ≤ 10 * perPage ∧
    (∃ ps : List (List Candidate),
      search_repositories_paginated fetch perPage = ps.flatten ∧
      ps.length ≤ 10 ∧
      (∀ i, (h : i + 1 < ps.length) →
        (ps.get ⟨i, Nat.lt_of_succ_lt h⟩).length = perPage)) ∧
    (∀ fetch2 : Nat → Option (List Candidate),
      (∀ p, 1 ≤ p → p ≤ 10 → fetch p = fetch2 p) →
      search_repositories_paginated fetch perPage
        = search_repositories_paginated fetch2 perPage) := by
  obtain ⟨ps, heq, hlen, hfull, hbound⟩ :=
    searchPaginatedAux_structure fetch perPage hpages 10 1
  refine ⟨hbound, ⟨ps, heq, hlen, hfull⟩, ?_⟩
  have hframe : ∀ (fuel start : Nat) (f g : Nat → Option (List Candidate)),
      (∀ p, start ≤ p → p < start + fuel → f p = g p) →
      searchPaginatedAux f perPage fuel start
        = searchPaginatedAux g perPage fuel start := by
    intro fuel
    induction fuel with
    | zero => intro start f g _; rfl
    | succ n ih =>
      intro start f g hw
      have h0 : f start = g start := hw start (Nat.le_refl _) (by omega)
      have hrec := ih (start + 1) f g (fun p h1 h2 => hw p (by omega) (by omega))
      simp [searchPaginatedAux, h0, hrec]
  intro fetch2 hw
  exact hframe 10 1 fetch fetch2 (fun p h1 h2 => hw p h1 (by omega))

theorem paginated_search_bounded_witness :
    (search_repositories_paginated (fun _ => some [mkCandidate "w/w" 70]) 3).length
      ≤ 10 * 3 :=
  (paginated_search_bounded (fun _ => some [mkCandidate "w/w" 70]) 3
    (fun p l h => by
      injection h with h2
      rw [← h2]
      decide)).1

end PRMiner
